import Mathlib

/-!
Verification of the quota-service core (`maniksurtani/qs`):
a shallow embedding of the Redis-backed token-bucket algorithm
(`admin/administrable.go`, Lua script in `loadScript` plus the Go wrapper
`redisBucket.Take`) and of the in-memory configuration persister
(`config/memory_persister.go`).

Machine integers (Go `int64`, Lua numbers holding integral values) are
modelled as `Int`.  Throughout the Lua script every quantity stays integral:
the stored cells are written with `math.floor`, the defaults and all script
arguments are integers, and the operations used (`+`, `-`, `*`, `min`,
`math.floor` of a division) map integers to integers, so `Int` is an exact
model and `math.floor` on an already-integral value is the identity.
Lua's `math.floor(x / y)` is floor division, embedded as `Int.fdiv`;
Go's `int64` division (used for `1e9 / fillRate`) truncates towards zero,
embedded as `Int.tdiv`.
-/

namespace QS

/-- The two Redis cells backing one bucket: `"<ns>:<name>:TNA"` and
`"<ns>:<name>:AT"`.  `none` models an absent (never written or expired) key. -/
structure BucketState where
  tokensNextAvailableNanos : Option Int
  accumulatedTokens : Option Int
  deriving DecidableEq, Repr

/-- The seven `ARGV` entries passed by `redisBucket.Take` to the Lua script. -/
structure ScriptArgs where
  currentTimeNanos : Int
  nanosBetweenTokens : Int
  maxTokensToAccumulate : Int
  requested : Int
  maxWaitTime : Int
  lifespan : Int
  maxDebtNanos : Int
  deriving DecidableEq, Repr

/-- The Lua token-bucket script from `loadScript` (administrable.go lines
240-288), as a pure state transformer.  Returns the script's return value
(`waitTime`, with `-1` as the rejection sentinel) together with the state of
the two Redis cells after the call.  The `lifespan` argument only selects the
`PX` expiry of the `SET` calls, a store-level TTL outside this value model;
expiry of idle cells is modelled by starting a run from `none` cells. -/
def runScript (st : BucketState) (a : ScriptArgs) : Int × BucketState :=
  let tokensNextAvailableNanos0 := st.tokensNextAvailableNanos.getD 0
  let accumulatedTokens0 := st.accumulatedTokens.getD a.maxTokensToAccumulate
  let refilled :=
    if a.currentTimeNanos > tokensNextAvailableNanos0 then
      let freshTokens :=
        Int.fdiv (a.currentTimeNanos - tokensNextAvailableNanos0) a.nanosBetweenTokens
      (a.currentTimeNanos,
        min a.maxTokensToAccumulate (accumulatedTokens0 + freshTokens))
    else
      (tokensNextAvailableNanos0, accumulatedTokens0)
  let waitTime := refilled.1 - a.currentTimeNanos
  let accumulatedTokensUsed := min refilled.2 a.requested
  let tokensToWaitFor := a.requested - accumulatedTokensUsed
  let futureWaitNanos := tokensToWaitFor * a.nanosBetweenTokens
  let tokensNextAvailableNanos1 := refilled.1 + futureWaitNanos
  let accumulatedTokens1 := refilled.2 - accumulatedTokensUsed
  if tokensNextAvailableNanos1 - a.currentTimeNanos > a.maxDebtNanos ∨
      (waitTime > 0 ∧ waitTime > a.maxWaitTime) then
    (-1, st)
  else
    (waitTime, ⟨some tokensNextAvailableNanos1, some accumulatedTokens1⟩)

/-- The fields of `pbconfig.BucketConfig` used by `NewBucket`. -/
structure BucketConfig where
  fillRate : Int
  size : Int
  maxIdleMillis : Int
  maxDebtMillis : Int
  deriving DecidableEq, Repr

/-- `NewBucket`: `nanosBetweenTokens = 1e9 / cfg.FillRate` (Go `int64`
division, truncating). -/
def nanosBetweenTokensOf (cfg : BucketConfig) : Int :=
  Int.tdiv 1000000000 cfg.fillRate

/-- `NewBucket`: `maxDebtNanos = cfg.MaxDebtMillis * 1e6`. -/
def maxDebtNanosOf (cfg : BucketConfig) : Int :=
  cfg.maxDebtMillis * 1000000

/-- `NewBucket`: `idle` is `cfg.MaxIdleMillis` when positive, else `"0"`. -/
def lifespanOf (cfg : BucketConfig) : Int :=
  if cfg.maxIdleMillis > 0 then cfg.maxIdleMillis else 0

/-- The argument vector `redisBucket.Take` builds for one script invocation. -/
def mkArgs (cfg : BucketConfig) (now requested maxWait : Int) : ScriptArgs :=
  ⟨now, nanosBetweenTokensOf cfg, cfg.size, requested, maxWait,
    lifespanOf cfg, maxDebtNanosOf cfg⟩

@[simp] lemma mkArgs_currentTimeNanos (cfg : BucketConfig) (now requested maxWait : Int) :
    (mkArgs cfg now requested maxWait).currentTimeNanos = now := rfl

@[simp] lemma mkArgs_requested (cfg : BucketConfig) (now requested maxWait : Int) :
    (mkArgs cfg now requested maxWait).requested = requested := rfl

@[simp] lemma mkArgs_maxWaitTime (cfg : BucketConfig) (now requested maxWait : Int) :
    (mkArgs cfg now requested maxWait).maxWaitTime = maxWait := rfl

@[simp] lemma mkArgs_nanosBetweenTokens (cfg : BucketConfig) (now requested maxWait : Int) :
    (mkArgs cfg now requested maxWait).nanosBetweenTokens = nanosBetweenTokensOf cfg := rfl

@[simp] lemma mkArgs_maxTokensToAccumulate (cfg : BucketConfig) (now requested maxWait : Int) :
    (mkArgs cfg now requested maxWait).maxTokensToAccumulate = cfg.size := rfl

@[simp] lemma mkArgs_maxDebtNanos (cfg : BucketConfig) (now requested maxWait : Int) :
    (mkArgs cfg now requested maxWait).maxDebtNanos = maxDebtNanosOf cfg := rfl

/-- One successful round trip of `redisBucket.Take` (administrable.go lines
168-210, connection failures aside): run the script and map a negative
return value to `(0, false)`, a non-negative one to `(waitTime, true)`. -/
def takeOnce (cfg : BucketConfig) (st : BucketState) (now requested maxWait : Int) :
    (Int × Bool) × BucketState :=
  let r := runScript st (mkArgs cfg now requested maxWait)
  (if r.1 < 0 then (0, false) else (r.1, true), r.2)

/-- A sequence of `Take` calls on one bucket: each list entry is
`(currentTimeNanos, requested, maxWaitTime)`.  Returns the list of
`(wait, admitted)` results and the final cell state. -/
def takeAll (cfg : BucketConfig) (st : BucketState) :
    List (Int × Int × Int) → List (Int × Bool) × BucketState
  | [] => ([], st)
  | (now, requested, maxWait) :: rest =>
    let r := takeOnce cfg st now requested maxWait
    let rec_ := takeAll cfg r.2 rest
    (r.1 :: rec_.1, rec_.2)

/-- The rejection condition of the script, as the spec states it:
after tentatively advancing `tokensNextAvailableNanos` by
`(requested - min(accumulated, requested)) * nanosBetweenTokens`, either the
debt exceeds `maxDebtNanos`, or the pre-advance `waitTime` is positive and
exceeds `maxWaitTime`.  `tna` and `acc` are the cell values after the refill
step. -/
def rejects (a : ScriptArgs) (tna acc : Int) : Prop :=
  tna + (a.requested - min acc a.requested) * a.nanosBetweenTokens - a.currentTimeNanos >
      a.maxDebtNanos ∨
    (tna - a.currentTimeNanos > 0 ∧ tna - a.currentTimeNanos > a.maxWaitTime)

instance (a : ScriptArgs) (tna acc : Int) : Decidable (rejects a tna acc) := by
  unfold rejects; infer_instance

/-- The refill step of the script: the cell values (with defaults applied)
after the `currentTimeNanos > tokensNextAvailableNanos` branch. -/
def refillStep (st : BucketState) (a : ScriptArgs) : Int × Int :=
  let tna0 := st.tokensNextAvailableNanos.getD 0
  let acc0 := st.accumulatedTokens.getD a.maxTokensToAccumulate
  if a.currentTimeNanos > tna0 then
    (a.currentTimeNanos,
      min a.maxTokensToAccumulate
        (acc0 + Int.fdiv (a.currentTimeNanos - tna0) a.nanosBetweenTokens))
  else
    (tna0, acc0)

/-- `NewBucketFactory` clamps `connectionRetries` to at least `1`. -/
def effectiveConnectionRetries (connectionRetries : Int) : Int :=
  if connectionRetries < 1 then 1 else connectionRetries

/-- The retry loop of `redisBucket.Take` (administrable.go lines 174-197).
`outcome i` is what attempt `i`'s `EvalSha` produced: `some w` when Redis
returned an `int64` (the loop then stops), `none` on any connection-level
failure (the loop closes the client, reconnects and retries).  The loop runs
at most `retries` attempts; `none` overall means every attempt failed. -/
def evalShaWithRetries (retries : Nat) (outcome : Nat → Option Int) : Option Int :=
  (List.range retries).foldl (fun acc i => acc <|> outcome i) none

/-- `redisBucket.Take` including the retry loop: `none` models the `panic`
taken when `keepTrying` is still set after `connectionRetries` attempts;
otherwise the returned `int64` is mapped exactly as in `takeOnce`. -/
def takeWithRetries (retries : Nat) (outcome : Nat → Option Int) :
    Option (Int × Bool) :=
  match evalShaWithRetries retries outcome with
  | none => none
  | some w => some (if w < 0 then (0, false) else (w, true))

/-- In-memory config persister (`config/memory_persister.go`).  `config` is
the key of the current blob, `configs` the hash-keyed map of all persisted
blobs (modelled as an association list, the order of which carries no
meaning), and `watcherPending` the number of signals buffered in the
capacity-1 `watcher` channel. -/
structure MemoryConfigPersister where
  config : List Nat
  configs : List (List Nat × List Nat)
  watcherPending : Nat
  deriving DecidableEq, Repr

/-- Modelled from the spec: `hashConfig` is defined outside `src/`
(`config` package); per the spec it "computes a content hash of `blob`" and
storage is "keyed by a content hash of itself" with "identical content
persisted twice deduplicated to one history entry".  Content-addressing is
modelled by keying on the blob content itself, an injective content hash. -/
def hashConfig (blob : List Nat) : List Nat := blob

/-- Go map assignment `m[k] = v` on an association list: overwrite the entry
for `k` if present, else add one. -/
def mapSet : List (List Nat × List Nat) → List Nat → List Nat →
    List (List Nat × List Nat)
  | [], k, v => [(k, v)]
  | p :: rest, k, v =>
    if p.1 = k then (k, v) :: rest else p :: mapSet rest k v

/-- `NewMemoryConfigPersister`: empty map, empty current key, and a fresh
`chan struct\x7b\x7d` of capacity 1 (nothing pending). -/
def newMemoryConfigPersister : MemoryConfigPersister := ⟨[], [], 0⟩

/-- `PersistAndNotify` (memory_persister.go lines 25-44) after a successful
read of the blob: set the current key to the content hash, store the blob
under it, then notify with a non-blocking send on the capacity-1 channel
(`select` with a `default` arm: the send succeeds only when the channel has
room, and the call never blocks either way). -/
def persistAndNotify (m : MemoryConfigPersister) (blob : List Nat) :
    MemoryConfigPersister :=
  let h := hashConfig blob
  { config := h
    configs := mapSet m.configs h blob
    watcherPending :=
      if m.watcherPending < 1 then m.watcherPending + 1 else m.watcherPending }

/-- `ReadPersistedConfig`: the blob stored under the current key (Go returns
a reader over `m.configs[m.config]`, the zero value when absent). -/
def readPersistedConfig (m : MemoryConfigPersister) : List Nat :=
  ((m.configs.find? (fun p => p.1 = m.config)).map Prod.snd).getD []

/-- `ReadHistoricalConfigs`: every stored blob, in map-iteration order
(unspecified; the list order carries no meaning). -/
def readHistoricalConfigs (m : MemoryConfigPersister) : List (List Nat) :=
  m.configs.map Prod.snd

/-- A sequence of `PersistAndNotify` calls with no intervening consumption of
the watcher channel. -/
def persistAll (m : MemoryConfigPersister) (blobs : List (List Nat)) :
    MemoryConfigPersister :=
  blobs.foldl persistAndNotify m

/-- A sample bucket configuration: `fillRate = 1` token/sec, `size = 5`,
`maxIdleMillis = 0`, `maxDebtMillis = 0` (the spec's concrete scenario). -/
def cfgOneTokenPerSec : BucketConfig := ⟨1, 5, 0, 0⟩

/-- Sample script arguments used to instantiate hypotheses concretely. -/
def argsSample : ScriptArgs := ⟨10, 2, 5, 1, 0, 0, 0⟩

/-! ### Characterization of the script in terms of `refillStep` and `rejects` -/

lemma runScript_eq (st : BucketState) (a : ScriptArgs) :
    runScript st a =
      if rejects a (refillStep st a).1 (refillStep st a).2 then (-1, st)
      else ((refillStep st a).1 - a.currentTimeNanos,
        ⟨some ((refillStep st a).1 +
            (a.requested - min (refillStep st a).2 a.requested) * a.nanosBetweenTokens),
          some ((refillStep st a).2 - min (refillStep st a).2 a.requested)⟩) := by
  simp only [runScript, refillStep, rejects]

lemma le_refillStep_fst (st : BucketState) (a : ScriptArgs) :
    a.currentTimeNanos ≤ (refillStep st a).1 := by
  simp only [refillStep]
  split_ifs with h <;> omega

/-- C1: the request is rejected iff, after tentatively advancing
`tokensNextAvailableNanos` by `(requested - min(accumulated, requested)) *
nanosBetweenTokens`, the debt exceeds `maxDebtNanos`, or the pre-advance
`waitTime` is positive and exceeds `maxWaitNanos`; `Take` returns `(0, false)`
exactly on rejection, and `(waitTime, true)` otherwise. -/
theorem take_rejects_iff (cfg : BucketConfig) (st : BucketState)
    (now requested maxWait : Int) :
    ((takeOnce cfg st now requested maxWait).1 = (0, false) ↔
      rejects (mkArgs cfg now requested maxWait)
        (refillStep st (mkArgs cfg now requested maxWait)).1
        (refillStep st (mkArgs cfg now requested maxWait)).2) ∧
    (¬ rejects (mkArgs cfg now requested maxWait)
        (refillStep st (mkArgs cfg now requested maxWait)).1
        (refillStep st (mkArgs cfg now requested maxWait)).2 →
      (takeOnce cfg st now requested maxWait).1 =
        ((refillStep st (mkArgs cfg now requested maxWait)).1 - now, true)) := by
  have hle : now ≤ (refillStep st (mkArgs cfg now requested maxWait)).1 :=
    le_refillStep_fst st (mkArgs cfg now requested maxWait)
  simp only [takeOnce]
  rw [runScript_eq]
  by_cases h : rejects (mkArgs cfg now requested maxWait)
      (refillStep st (mkArgs cfg now requested maxWait)).1
      (refillStep st (mkArgs cfg now requested maxWait)).2
  · rw [if_pos h]
    refine ⟨by simp [h], fun hn => absurd h hn⟩
  · rw [if_neg h]
    have hnl : ¬ ((refillStep st (mkArgs cfg now requested maxWait)).1 - now < 0) := by
      omega
    constructor
    · simp [hnl, h]
    · intro _
      simp [hnl]

/-- C1 witness: a concrete admitted call. -/
theorem take_rejects_iff_witness :
    ¬ rejects (mkArgs cfgOneTokenPerSec 0 1 0)
        (refillStep ⟨none, none⟩ (mkArgs cfgOneTokenPerSec 0 1 0)).1
        (refillStep ⟨none, none⟩ (mkArgs cfgOneTokenPerSec 0 1 0)).2 ∧
      (takeOnce cfgOneTokenPerSec ⟨none, none⟩ 0 1 0).1 =
        ((refillStep ⟨none, none⟩ (mkArgs cfgOneTokenPerSec 0 1 0)).1 - 0, true) :=
  ⟨by decide, (take_rejects_iff cfgOneTokenPerSec ⟨none, none⟩ 0 1 0).2 (by decide)⟩

/-- C10: the sentinel is unambiguous — the script returns `-1` iff the
request is rejected, an admitted invocation returns the non-negative
post-refill `waitTime`, and a negative return value is exactly `-1`, so the
`waitTime < 0` test in `Take` never misclassifies an admitted request. -/
theorem script_sentinel_unambiguous (st : BucketState) (a : ScriptArgs) :
    ((runScript st a).1 = -1 ↔
      rejects a (refillStep st a).1 (refillStep st a).2) ∧
    (¬ rejects a (refillStep st a).1 (refillStep st a).2 →
      0 ≤ (runScript st a).1 ∧
        (runScript st a).1 = (refillStep st a).1 - a.currentTimeNanos) ∧
    ((runScript st a).1 < 0 ↔ (runScript st a).1 = -1) := by
  have hle := le_refillStep_fst st a
  rw [runScript_eq]
  by_cases h : rejects a (refillStep st a).1 (refillStep st a).2
  · rw [if_pos h]
    exact ⟨by simp [h], fun hn => absurd h hn, by norm_num⟩
  · rw [if_neg h]
    refine ⟨by simp [h]; omega, fun _ => ⟨by simp; omega, by simp⟩,
      by simp; constructor <;> intro <;> omega⟩

/-- C10 witness: a concrete admitted invocation. -/
theorem script_sentinel_unambiguous_witness :
    ¬ rejects argsSample (refillStep ⟨none, none⟩ argsSample).1
        (refillStep ⟨none, none⟩ argsSample).2 ∧
      0 ≤ (runScript ⟨none, none⟩ argsSample).1 ∧
        (runScript ⟨none, none⟩ argsSample).1 =
          (refillStep ⟨none, none⟩ argsSample).1 - argsSample.currentTimeNanos :=
  ⟨by decide, (script_sentinel_unambiguous ⟨none, none⟩ argsSample).2.1 (by decide)⟩

lemma takeOnce_rejected_state (cfg : BucketConfig) (st : BucketState)
    (now requested maxWait : Int)
    (h : (takeOnce cfg st now requested maxWait).1.2 = false) :
    (takeOnce cfg st now requested maxWait).2 = st := by
  have hle : now ≤ (refillStep st (mkArgs cfg now requested maxWait)).1 :=
    le_refillStep_fst st (mkArgs cfg now requested maxWait)
  simp only [takeOnce] at h ⊢
  rw [runScript_eq] at h ⊢
  by_cases hr : rejects (mkArgs cfg now requested maxWait)
      (refillStep st (mkArgs cfg now requested maxWait)).1
      (refillStep st (mkArgs cfg now requested maxWait)).2
  · rw [if_pos hr]
  · rw [if_neg hr] at h
    have hnl : ¬ ((refillStep st (mkArgs cfg now requested maxWait)).1 - now < 0) := by
      omega
    simp [hnl] at h

lemma takeAll_all_rejected (cfg : BucketConfig) :
    ∀ (calls : List (Int × Int × Int)) (st : BucketState),
      (∀ r ∈ (takeAll cfg st calls).1, r.2 = false) →
        (takeAll cfg st calls).2 = st := by
  intro calls
  induction calls with
  | nil => intro st _; rfl
  | cons c rest ih =>
    intro st h
    obtain ⟨t, r, w⟩ := c
    simp only [takeAll] at h ⊢
    have hhead : (takeOnce cfg st t r w).1.2 = false := by
      have := h (takeOnce cfg st t r w).1 (by simp)
      exact this
    have hst : (takeOnce cfg st t r w).2 = st :=
      takeOnce_rejected_state cfg st t r w hhead
    rw [hst] at h ⊢
    exact ih st (fun x hx => h x (by simp [hx]))

/-- C2: a rejected invocation writes nothing — both cells are unchanged —
and any sequence of rejected `Take` calls leaves the bucket state unchanged. -/
theorem rejection_no_write (cfg : BucketConfig) (st : BucketState) :
    (∀ now requested maxWait,
      (takeOnce cfg st now requested maxWait).1.2 = false →
        (takeOnce cfg st now requested maxWait).2 = st) ∧
    (∀ calls : List (Int × Int × Int),
      (∀ r ∈ (takeAll cfg st calls).1, r.2 = false) →
        (takeAll cfg st calls).2 = st) :=
  ⟨fun now requested maxWait h => takeOnce_rejected_state cfg st now requested maxWait h,
    fun calls h => takeAll_all_rejected cfg calls st h⟩

/-- C2 witness: two rejected calls on an empty zero-debt bucket leave its
cells untouched. -/
theorem rejection_no_write_witness :
    (∀ r ∈ (takeAll cfgOneTokenPerSec ⟨some 0, some 0⟩ [(0, 1, 0), (0, 2, 0)]).1,
        r.2 = false) ∧
      (takeAll cfgOneTokenPerSec ⟨some 0, some 0⟩ [(0, 1, 0), (0, 2, 0)]).2 =
        ⟨some 0, some 0⟩ :=
  ⟨by decide,
    (rejection_no_write cfgOneTokenPerSec ⟨some 0, some 0⟩).2
      [(0, 1, 0), (0, 2, 0)] (by decide)⟩

/-- C3: absent cells default to `tokensNextAvailableNanos = 0` and
`accumulatedTokens = maxTokensToAccumulate` (the bucket starts full); when
`currentTimeNanos > tokensNextAvailableNanos` the refill step yields
`accumulatedTokens = min(maxTokensToAccumulate, accumulatedTokens +
floor((currentTimeNanos - tokensNextAvailableNanos) / nanosBetweenTokens))`
and `tokensNextAvailableNanos = currentTimeNanos`; and the wait time of every
admitted invocation is computed from the refilled values. -/
theorem defaults_and_refill (a : ScriptArgs) :
    ((runScript ⟨none, none⟩ a).1 =
        (runScript ⟨some 0, some a.maxTokensToAccumulate⟩ a).1) ∧
    (refillStep ⟨none, none⟩ a =
        refillStep ⟨some 0, some a.maxTokensToAccumulate⟩ a) ∧
    (∀ t0 a0 : Int, a.currentTimeNanos > t0 →
        refillStep ⟨some t0, some a0⟩ a =
          (a.currentTimeNanos,
            min a.maxTokensToAccumulate
              (a0 + Int.fdiv (a.currentTimeNanos - t0) a.nanosBetweenTokens))) ∧
    (∀ st : BucketState, (runScript st a).1 ≠ -1 →
        (runScript st a).1 = (refillStep st a).1 - a.currentTimeNanos) := by
  have h2 : refillStep ⟨none, none⟩ a =
      refillStep ⟨some 0, some a.maxTokensToAccumulate⟩ a := rfl
  refine ⟨?_, h2, ?_, ?_⟩
  · rw [runScript_eq, runScript_eq, h2]
    split_ifs <;> rfl
  · intro t0 a0 h
    simp only [refillStep, Option.getD_some]
    rw [if_pos h]
  · intro st h
    rw [runScript_eq] at h ⊢
    by_cases hr : rejects a (refillStep st a).1 (refillStep st a).2
    · rw [if_pos hr] at h
      exact absurd rfl h
    · rw [if_neg hr]

/-- C3 witness: the refill formula and the post-refill wait at concrete
inputs. -/
theorem defaults_and_refill_witness :
    (argsSample.currentTimeNanos > 5 ∧
      refillStep ⟨some 5, some 3⟩ argsSample =
        (argsSample.currentTimeNanos,
          min argsSample.maxTokensToAccumulate
            (3 + Int.fdiv (argsSample.currentTimeNanos - 5) argsSample.nanosBetweenTokens))) ∧
    ((runScript ⟨none, none⟩ argsSample).1 ≠ -1 ∧
      (runScript ⟨none, none⟩ argsSample).1 =
        (refillStep ⟨none, none⟩ argsSample).1 - argsSample.currentTimeNanos) :=
  ⟨⟨by decide, (defaults_and_refill argsSample).2.2.1 5 3 (by decide)⟩,
    ⟨by decide, (defaults_and_refill argsSample).2.2.2 ⟨none, none⟩ (by decide)⟩⟩

/-- The backing-store state after a sequence of script invocations. -/
def runScriptAll (st : BucketState) (argsList : List ScriptArgs) : BucketState :=
  argsList.foldl (fun s a => (runScript s a).2) st

/-- The `accumulatedTokens` cell, when present, holds a value in
`[0, size]`. -/
def accWithin (size : Int) (st : BucketState) : Prop :=
  ∀ x, st.accumulatedTokens = some x → 0 ≤ x ∧ x ≤ size

lemma refillStep_acc_bounds (size : Int) (st : BucketState) (a : ScriptArgs)
    (hsize : 0 ≤ size) (hmax : a.maxTokensToAccumulate = size)
    (hnbt : 0 < a.nanosBetweenTokens) (hst : accWithin size st) :
    0 ≤ (refillStep st a).2 ∧ (refillStep st a).2 ≤ size := by
  have hacc0 : 0 ≤ st.accumulatedTokens.getD a.maxTokensToAccumulate ∧
      st.accumulatedTokens.getD a.maxTokensToAccumulate ≤ size := by
    cases h : st.accumulatedTokens with
    | none => simpa [hmax] using hsize
    | some x => simpa using hst x h
  simp only [refillStep]
  split_ifs with h
  · have hfresh : 0 ≤ Int.fdiv (a.currentTimeNanos - st.tokensNextAvailableNanos.getD 0)
        a.nanosBetweenTokens :=
      Int.fdiv_nonneg (by omega) (by omega)
    omega
  · omega

lemma runScript_acc_within (size : Int) (st : BucketState) (a : ScriptArgs)
    (hsize : 0 ≤ size) (hmax : a.maxTokensToAccumulate = size)
    (hreq : 0 ≤ a.requested) (hnbt : 0 < a.nanosBetweenTokens)
    (hst : accWithin size st) :
    accWithin size (runScript st a).2 := by
  rw [runScript_eq]
  by_cases hr : rejects a (refillStep st a).1 (refillStep st a).2
  · rw [if_pos hr]; exact hst
  · rw [if_neg hr]
    intro x hx
    have hb := refillStep_acc_bounds size st a hsize hmax hnbt hst
    simp only [Option.some.injEq] at hx
    omega

/-- C6: starting from absent cells, every state reachable through script
invocations keeps the stored `accumulatedTokens` in `[0, size]` (in this
integer model `floor` is the identity, so integrality is structural). -/
theorem accumulated_tokens_bounded (size : Int) (hsize : 0 ≤ size)
    (argsList : List ScriptArgs)
    (hargs : ∀ a ∈ argsList, a.maxTokensToAccumulate = size ∧
      0 ≤ a.requested ∧ 0 < a.nanosBetweenTokens) :
    accWithin size (runScriptAll ⟨none, none⟩ argsList) := by
  have main : ∀ (l : List ScriptArgs) (st : BucketState),
      (∀ a ∈ l, a.maxTokensToAccumulate = size ∧
        0 ≤ a.requested ∧ 0 < a.nanosBetweenTokens) →
      accWithin size st → accWithin size (runScriptAll st l) := by
    intro l
    induction l with
    | nil => intro st _ hst; exact hst
    | cons a rest ih =>
      intro st hl hst
      have ha := hl a (by simp)
      exact ih (runScript st a).2 (fun b hb => hl b (by simp [hb]))
        (runScript_acc_within size st a hsize ha.1 ha.2.1 ha.2.2 hst)
  exact main argsList ⟨none, none⟩ hargs (by intro x hx; cases hx)

/-- C6 witness: one concrete invocation from absent cells. -/
theorem accumulated_tokens_bounded_witness :
    (0 : Int) ≤ 5 ∧ accWithin 5 (runScriptAll ⟨none, none⟩ [argsSample]) :=
  ⟨by decide, accumulated_tokens_bounded 5 (by decide) [argsSample] (by decide)⟩

/-- Calls `(t, requested, maxWait)` issued no faster than the bucket refills:
each call's time is at least `requested * nanosBetweenTokens` after the
previous call (and the first is that far after time `prev`). -/
def wellSpaced (nBT : Int) : Int → List (Int × Int × Int) → Prop
  | _, [] => True
  | prev, c :: rest => prev + c.2.1 * nBT ≤ c.1 ∧ wellSpaced nBT c.1 rest

def wellSpacedDec (nBT : Int) :
    (prev : Int) → (l : List (Int × Int × Int)) → Decidable (wellSpaced nBT prev l)
  | _, [] => isTrue trivial
  | prev, c :: rest =>
    have : Decidable (wellSpaced nBT c.1 rest) := wellSpacedDec nBT c.1 rest
    inferInstanceAs (Decidable (prev + c.2.1 * nBT ≤ c.1 ∧ wellSpaced nBT c.1 rest))

instance (nBT prev : Int) (l : List (Int × Int × Int)) :
    Decidable (wellSpaced nBT prev l) := wellSpacedDec nBT prev l

lemma refillStep_gap (cfg : BucketConfig) (st : BucketState) (t r w : Int)
    (hnbt : 0 < nanosBetweenTokensOf cfg) (hsize : 0 ≤ cfg.size)
    (hr0 : 0 ≤ r) (hrs : r ≤ cfg.size)
    (hacc : 0 ≤ st.accumulatedTokens.getD cfg.size)
    (hgap : st.tokensNextAvailableNanos.getD 0 + r * nanosBetweenTokensOf cfg ≤ t) :
    (refillStep st (mkArgs cfg t r w)).1 = t ∧
      r ≤ (refillStep st (mkArgs cfg t r w)).2 ∧
      0 ≤ (refillStep st (mkArgs cfg t r w)).2 := by
  simp only [refillStep, mkArgs_currentTimeNanos, mkArgs_maxTokensToAccumulate,
    mkArgs_nanosBetweenTokens]
  split_ifs with h
  · have hfresh : r ≤ Int.fdiv (t - st.tokensNextAvailableNanos.getD 0)
        (nanosBetweenTokensOf cfg) := by
      rw [Int.fdiv_eq_ediv _ (le_of_lt hnbt), Int.le_ediv_iff_mul_le hnbt]
      omega
    refine ⟨rfl, ?_, ?_⟩ <;> simp <;> omega
  · have hr : r = 0 := by
      rcases lt_or_eq_of_le hr0 with hpos | hz
      · have := mul_pos hpos hnbt
        omega
      · omega
    subst hr
    refine ⟨by omega, by simpa using hacc, by simpa using hacc⟩

lemma takeOnce_admits (cfg : BucketConfig) (st : BucketState) (t r w : Int)
    (hnbt : 0 < nanosBetweenTokensOf cfg) (hsize : 0 ≤ cfg.size)
    (hdebt : 0 ≤ maxDebtNanosOf cfg)
    (hr0 : 0 ≤ r) (hrs : r ≤ cfg.size)
    (hacc : 0 ≤ st.accumulatedTokens.getD cfg.size)
    (hgap : st.tokensNextAvailableNanos.getD 0 + r * nanosBetweenTokensOf cfg ≤ t) :
    takeOnce cfg st t r w =
        ((0, true), ⟨some t, some ((refillStep st (mkArgs cfg t r w)).2 - r)⟩) ∧
      0 ≤ (refillStep st (mkArgs cfg t r w)).2 - r := by
  obtain ⟨h1, h2, h3⟩ := refillStep_gap cfg st t r w hnbt hsize hr0 hrs hacc hgap
  have hmin : min (refillStep st (mkArgs cfg t r w)).2 r = r := min_eq_right h2
  have hnr : ¬ rejects (mkArgs cfg t r w) (refillStep st (mkArgs cfg t r w)).1
      (refillStep st (mkArgs cfg t r w)).2 := by
    simp only [rejects, mkArgs_currentTimeNanos, mkArgs_maxWaitTime,
      mkArgs_maxDebtNanos, mkArgs_nanosBetweenTokens, mkArgs_requested, h1, hmin,
      sub_self, zero_mul, add_zero]
    omega
  refine ⟨?_, by omega⟩
  simp only [takeOnce]
  rw [runScript_eq, if_neg hnr]
  simp only [mkArgs_requested, mkArgs_currentTimeNanos, mkArgs_nanosBetweenTokens,
    h1, hmin]
  have hz : ¬ ((t : Int) - t < 0) := by omega
  rw [if_neg hz]
  simp

lemma takeAll_admits (cfg : BucketConfig)
    (hnbt : 0 < nanosBetweenTokensOf cfg) (hsize : 0 ≤ cfg.size)
    (hdebt : 0 ≤ maxDebtNanosOf cfg) :
    ∀ (calls : List (Int × Int × Int)) (st : BucketState),
      (∀ c ∈ calls, 0 ≤ c.2.1 ∧ c.2.1 ≤ cfg.size) →
      0 ≤ st.accumulatedTokens.getD cfg.size →
      wellSpaced (nanosBetweenTokensOf cfg) (st.tokensNextAvailableNanos.getD 0) calls →
      ∀ res ∈ (takeAll cfg st calls).1, res = (0, true) := by
  intro calls
  induction calls with
  | nil => intro st _ _ _ res hres; cases hres
  | cons c rest ih =>
    obtain ⟨t, r, w⟩ := c
    intro st hreq hacc hws res hres
    obtain ⟨hgap, hws'⟩ := hws
    have hr := hreq (t, r, w) (by simp)
    obtain ⟨heq, hpos⟩ := takeOnce_admits cfg st t r w hnbt hsize hdebt
      hr.1 hr.2 hacc hgap
    simp only [takeAll, heq, List.mem_cons] at hres
    rcases hres with hres | hres
    · exact hres
    · exact ih ⟨some t, some ((refillStep st (mkArgs cfg t r w)).2 - r)⟩
        (fun x hx => hreq x (by simp [hx])) (by simpa using hpos)
        (by simpa using hws') res hres

/-- C4: on a fresh bucket with a sane configuration, every sequence of calls
each requesting at most `size` tokens and spaced at least
`requested * nanosBetweenTokens` apart is admitted with wait `0`. -/
theorem paced_calls_always_admitted (cfg : BucketConfig)
    (calls : List (Int × Int × Int))
    (hfill : 0 < cfg.fillRate) (hfill2 : cfg.fillRate ≤ 1000000000)
    (hsize : 0 ≤ cfg.size) (hdebt : 0 ≤ cfg.maxDebtMillis)
    (hreq : ∀ c ∈ calls, 0 ≤ c.2.1 ∧ c.2.1 ≤ cfg.size)
    (hgap : wellSpaced (nanosBetweenTokensOf cfg) 0 calls) :
    ∀ res ∈ (takeAll cfg ⟨none, none⟩ calls).1, res = (0, true) := by
  have hnbt : 0 < nanosBetweenTokensOf cfg := by
    have : (1 : Int) ≤ Int.tdiv 1000000000 cfg.fillRate := by
      rw [Int.tdiv_eq_ediv (by norm_num) (le_of_lt hfill),
        Int.le_ediv_iff_mul_le hfill]
      omega
    simpa [nanosBetweenTokensOf] using this
  have hdn : 0 ≤ maxDebtNanosOf cfg := by
    have := mul_nonneg hdebt (by norm_num : (0 : Int) ≤ 1000000)
    simpa [maxDebtNanosOf] using this
  exact takeAll_admits cfg hnbt hsize hdn calls ⟨none, none⟩ hreq
    (by simpa using hsize) (by simpa using hgap)

/-- C4 witness: two paced calls of 5 tokens each on the 1-token/sec bucket. -/
theorem paced_calls_always_admitted_witness :
    wellSpaced (nanosBetweenTokensOf cfgOneTokenPerSec) 0
        [(5000000000, 5, 0), (10000000000, 5, 0)] ∧
      ∀ res ∈ (takeAll cfgOneTokenPerSec ⟨none, none⟩
          [(5000000000, 5, 0), (10000000000, 5, 0)]).1, res = (0, true) :=
  ⟨by decide,
    paced_calls_always_admitted cfgOneTokenPerSec
      [(5000000000, 5, 0), (10000000000, 5, 0)]
      (by decide) (by decide) (by decide) (by decide) (by decide) (by decide)⟩

lemma takeFirst_full (t1 : Int) (h1 : 0 ≤ t1) :
    takeOnce cfgOneTokenPerSec ⟨none, none⟩ t1 5 0 = ((0, true), ⟨some t1, some 0⟩) := by
  have hnbt : nanosBetweenTokensOf cfgOneTokenPerSec = 1000000000 := by decide
  have hrc : refillStep ⟨none, none⟩ (mkArgs cfgOneTokenPerSec t1 5 0) = (t1, 5) := by
    simp only [refillStep, mkArgs_currentTimeNanos, mkArgs_maxTokensToAccumulate,
      mkArgs_nanosBetweenTokens, hnbt, Option.getD_none, Option.getD_some,
      show cfgOneTokenPerSec.size = 5 from rfl]
    split_ifs with h
    · have hf : 0 ≤ Int.fdiv (t1 - 0) 1000000000 :=
        Int.fdiv_nonneg (by omega) (by norm_num)
      exact Prod.ext rfl (by omega)
    · exact Prod.ext (by omega) rfl
  simp only [takeOnce]
  rw [runScript_eq, hrc]
  have hnr : ¬ rejects (mkArgs cfgOneTokenPerSec t1 5 0) ((t1 : Int), (5 : Int)).1
      ((t1 : Int), (5 : Int)).2 := by
    simp [rejects, cfgOneTokenPerSec, maxDebtNanosOf]
  rw [if_neg hnr]
  simp

lemma takeSecond_rejected (t1 t2 : Int) (h2 : t1 ≤ t2) (h3 : t2 < t1 + 1000000000) :
    (takeOnce cfgOneTokenPerSec ⟨some t1, some 0⟩ t2 1 0).1.2 = false := by
  have hnbt : nanosBetweenTokensOf cfgOneTokenPerSec = 1000000000 := by decide
  have hrc : refillStep ⟨some t1, some 0⟩ (mkArgs cfgOneTokenPerSec t2 1 0) = (t2, 0) ∨
      refillStep ⟨some t1, some 0⟩ (mkArgs cfgOneTokenPerSec t2 1 0) = (t1, 0) := by
    simp only [refillStep, mkArgs_currentTimeNanos, mkArgs_maxTokensToAccumulate,
      mkArgs_nanosBetweenTokens, hnbt, Option.getD_some,
      show cfgOneTokenPerSec.size = 5 from rfl]
    split_ifs with h
    · left
      have hf : Int.fdiv (t2 - t1) 1000000000 = 0 := by
        rw [Int.fdiv_eq_ediv _ (by norm_num)]
        exact Int.ediv_eq_zero_of_lt (by omega) (by omega)
      rw [hf]
      exact Prod.ext rfl (by omega)
    · right
      rfl
  simp only [takeOnce]
  rw [runScript_eq]
  rcases hrc with hrc | hrc <;> rw [hrc]
  · have hr : rejects (mkArgs cfgOneTokenPerSec t2 1 0) ((t2 : Int), (0 : Int)).1
        ((t2 : Int), (0 : Int)).2 := by
      simp only [rejects, mkArgs_currentTimeNanos, mkArgs_maxWaitTime, mkArgs_maxDebtNanos,
        mkArgs_nanosBetweenTokens, mkArgs_requested, hnbt,
        show maxDebtNanosOf cfgOneTokenPerSec = 0 from rfl]
      left
      norm_num
    rw [if_pos hr]
    norm_num
  · have hr : rejects (mkArgs cfgOneTokenPerSec t2 1 0) ((t1 : Int), (0 : Int)).1
        ((t1 : Int), (0 : Int)).2 := by
      simp only [rejects, mkArgs_currentTimeNanos, mkArgs_maxWaitTime, mkArgs_maxDebtNanos,
        mkArgs_nanosBetweenTokens, mkArgs_requested, hnbt,
        show maxDebtNanosOf cfgOneTokenPerSec = 0 from rfl]
      left
      norm_num
      omega
    rw [if_pos hr]
    norm_num

lemma takeThird_admitted (t1 : Int) :
    (takeOnce cfgOneTokenPerSec ⟨some t1, some 0⟩ (t1 + 1000000000) 1 0).1 = (0, true) := by
  have hnbt : nanosBetweenTokensOf cfgOneTokenPerSec = 1000000000 := by decide
  have hrc : refillStep ⟨some t1, some 0⟩
      (mkArgs cfgOneTokenPerSec (t1 + 1000000000) 1 0) = (t1 + 1000000000, 1) := by
    simp only [refillStep, mkArgs_currentTimeNanos, mkArgs_maxTokensToAccumulate,
      mkArgs_nanosBetweenTokens, hnbt, Option.getD_some,
      show cfgOneTokenPerSec.size = 5 from rfl]
    rw [if_pos (by omega)]
    have he : t1 + 1000000000 - t1 = 1000000000 := by omega
    rw [he]
    have hf : Int.fdiv 1000000000 1000000000 = 1 := by decide
    rw [hf]
    exact Prod.ext rfl (by norm_num)
  simp only [takeOnce]
  rw [runScript_eq, hrc]
  have hnr : ¬ rejects (mkArgs cfgOneTokenPerSec (t1 + 1000000000) 1 0)
      ((t1 + 1000000000 : Int), (1 : Int)).1 ((t1 + 1000000000 : Int), (1 : Int)).2 := by
    simp only [rejects, mkArgs_currentTimeNanos, mkArgs_maxWaitTime, mkArgs_maxDebtNanos,
      mkArgs_nanosBetweenTokens, mkArgs_requested, hnbt,
      show maxDebtNanosOf cfgOneTokenPerSec = 0 from rfl]
    norm_num
  rw [if_neg hnr]
  simp

/-- C5: on a fresh 1-token/sec bucket of size 5 with no wait and no debt
allowed, an initial `Take(5, 0)` is admitted with wait 0; a `Take(1, 0)` less
than one second later is rejected; and a `Take(1, 0)` exactly one second
(`nanosBetweenTokens`) after the first call is admitted with wait 0. -/
theorem fresh_bucket_scenario (t1 t2 : Int) (h1 : 0 ≤ t1) (h2 : t1 ≤ t2)
    (h3 : t2 < t1 + 1000000000) :
    (takeOnce cfgOneTokenPerSec ⟨none, none⟩ t1 5 0).1 = (0, true) ∧
      (takeOnce cfgOneTokenPerSec
          (takeOnce cfgOneTokenPerSec ⟨none, none⟩ t1 5 0).2 t2 1 0).1.2 = false ∧
      (takeOnce cfgOneTokenPerSec
          (takeOnce cfgOneTokenPerSec ⟨none, none⟩ t1 5 0).2
          (t1 + 1000000000) 1 0).1 = (0, true) := by
  have hfull := takeFirst_full t1 h1
  refine ⟨by rw [hfull], ?_, ?_⟩
  · rw [hfull]
    exact takeSecond_rejected t1 t2 h2 h3
  · rw [hfull]
    exact takeThird_admitted t1

/-- C5 witness: the scenario at `t1 = 0`, `t2 = 1`. -/
theorem fresh_bucket_scenario_witness :
    (takeOnce cfgOneTokenPerSec ⟨none, none⟩ 0 5 0).1 = (0, true) ∧
      (takeOnce cfgOneTokenPerSec
          (takeOnce cfgOneTokenPerSec ⟨none, none⟩ 0 5 0).2 1 1 0).1.2 = false ∧
      (takeOnce cfgOneTokenPerSec
          (takeOnce cfgOneTokenPerSec ⟨none, none⟩ 0 5 0).2
          (0 + 1000000000) 1 0).1 = (0, true) :=
  fresh_bucket_scenario 0 1 (by decide) (by decide) (by decide)

lemma persistAll_watcher_stays_one (blobs : List (List Nat)) :
    ∀ m : MemoryConfigPersister, m.watcherPending = 1 →
      (persistAll m blobs).watcherPending = 1 := by
  induction blobs with
  | nil => intro m hm; exact hm
  | cons b bs ih =>
    intro m hm
    have hstep : (persistAndNotify m b).watcherPending = 1 := by
      simp [persistAndNotify, hm]
    exact ih (persistAndNotify m b) hstep

/-- C7: N persists (N ≥ 1) with no intervening consumption of the watcher
channel leave exactly one notification pending — never N, never zero.  The
notifying send is the non-blocking `select` with a `default` arm, modelled as
a total state update, so no invocation blocks. -/
theorem coalesced_notification (blobs : List (List Nat)) (h : blobs ≠ []) :
    (persistAll newMemoryConfigPersister blobs).watcherPending = 1 := by
  cases blobs with
  | nil => exact absurd rfl h
  | cons b bs =>
    have hstep : (persistAndNotify newMemoryConfigPersister b).watcherPending = 1 := by
      simp [persistAndNotify, newMemoryConfigPersister]
    exact persistAll_watcher_stays_one bs (persistAndNotify newMemoryConfigPersister b) hstep

/-- C7 witness: three persists leave exactly one pending notification. -/
theorem coalesced_notification_witness :
    ([[0], [1], [0]] : List (List Nat)) ≠ [] ∧
      (persistAll newMemoryConfigPersister [[0], [1], [0]]).watcherPending = 1 :=
  ⟨by decide, coalesced_notification [[0], [1], [0]] (by decide)⟩

lemma mapSet_entries (b : List Nat) :
    ∀ l : List (List Nat × List Nat), (∀ p ∈ l, p.1 = p.2) →
      ∀ p ∈ mapSet l b b, p.1 = p.2 := by
  intro l
  induction l with
  | nil =>
    intro _ p hp
    simp only [mapSet, List.mem_singleton] at hp
    subst hp; rfl
  | cons q rest ih =>
    intro h p hp
    simp only [mapSet] at hp
    split_ifs at hp with hq
    · rcases List.mem_cons.mp hp with hp | hp
      · subst hp; rfl
      · exact h p (List.mem_cons_of_mem q hp)
    · rcases List.mem_cons.mp hp with hp | hp
      · rw [hp]; exact h q (List.mem_cons_self q rest)
      · exact ih (fun x hx => h x (List.mem_cons_of_mem q hx)) p hp

lemma mapSet_fst_mem (k v x : List Nat) :
    ∀ l : List (List Nat × List Nat),
      (x ∈ (mapSet l k v).map Prod.fst ↔ x = k ∨ x ∈ l.map Prod.fst) := by
  intro l
  induction l with
  | nil => simp [mapSet]
  | cons q rest ih =>
    simp only [mapSet]
    split_ifs with hq
    · subst hq
      simp only [List.map_cons, List.mem_cons]
      tauto
    · simp only [List.map_cons, List.mem_cons, ih]
      tauto

lemma mapSet_fst_nodup (k v : List Nat) :
    ∀ l : List (List Nat × List Nat), (l.map Prod.fst).Nodup →
      ((mapSet l k v).map Prod.fst).Nodup := by
  intro l
  induction l with
  | nil => intro _; simp [mapSet]
  | cons q rest ih =>
    intro h
    simp only [List.map_cons, List.nodup_cons] at h
    simp only [mapSet]
    split_ifs with hq
    · simp only [List.map_cons, List.nodup_cons]
      exact ⟨by rw [← hq]; exact h.1, h.2⟩
    · simp only [List.map_cons, List.nodup_cons, mapSet_fst_mem]
      refine ⟨?_, ih h.2⟩
      rintro (hk | hmem)
      · exact hq hk
      · exact h.1 hmem

lemma snd_eq_fst_of_entries :
    ∀ l : List (List Nat × List Nat), (∀ p ∈ l, p.1 = p.2) →
      l.map Prod.snd = l.map Prod.fst := by
  intro l
  induction l with
  | nil => intro _; rfl
  | cons q rest ih =>
    intro h
    simp only [List.map_cons]
    rw [ih (fun x hx => h x (List.mem_cons_of_mem q hx)),
      (h q (List.mem_cons_self q rest)).symm]

lemma persistAll_configs (blobs : List (List Nat)) :
    ∀ m : MemoryConfigPersister, (∀ p ∈ m.configs, p.1 = p.2) →
      (m.configs.map Prod.fst).Nodup →
      ((∀ p ∈ (persistAll m blobs).configs, p.1 = p.2) ∧
        ((persistAll m blobs).configs.map Prod.fst).Nodup ∧
        ∀ x, x ∈ (persistAll m blobs).configs.map Prod.fst ↔
          x ∈ blobs ∨ x ∈ m.configs.map Prod.fst) := by
  induction blobs with
  | nil =>
    intro m he hn
    exact ⟨he, hn, fun x => by rw [show persistAll m [] = m from rfl]; simp⟩
  | cons b bs ih =>
    intro m he hn
    have hfold : persistAll m (b :: bs) = persistAll (persistAndNotify m b) bs := rfl
    have hconf : (persistAndNotify m b).configs = mapSet m.configs b b := rfl
    have he' : ∀ p ∈ (persistAndNotify m b).configs, p.1 = p.2 := by
      rw [hconf]; exact mapSet_entries b m.configs he
    have hn' : ((persistAndNotify m b).configs.map Prod.fst).Nodup := by
      rw [hconf]; exact mapSet_fst_nodup b b m.configs hn
    obtain ⟨ihe, ihn, ihm⟩ := ih (persistAndNotify m b) he' hn'
    rw [hfold]
    refine ⟨ihe, ihn, fun x => ?_⟩
    have hx := ihm x
    rw [hconf] at hx
    rw [hx, mapSet_fst_mem, List.mem_cons]
    tauto

/-- C8: after any sequence of persists, the history contains exactly one
entry per distinct byte content ever persisted — persisting the same content
twice yields one entry, because storage is keyed by the content hash. -/
theorem content_addressed_dedup (blobs : List (List Nat)) :
    (readHistoricalConfigs (persistAll newMemoryConfigPersister blobs)).Nodup ∧
      ∀ b, b ∈ readHistoricalConfigs (persistAll newMemoryConfigPersister blobs) ↔
        b ∈ blobs := by
  obtain ⟨he, hn, hm⟩ := persistAll_configs blobs newMemoryConfigPersister
    (by intro p hp; cases hp) (by simp [newMemoryConfigPersister])
  have hsf := snd_eq_fst_of_entries _ he
  constructor
  · rw [readHistoricalConfigs, hsf]; exact hn
  · intro b
    rw [readHistoricalConfigs, hsf, hm b]
    simp [newMemoryConfigPersister]

lemma evalShaWithRetries_succ (n : Nat) (outcome : Nat → Option Int) :
    evalShaWithRetries (n + 1) outcome =
      (evalShaWithRetries n outcome <|> outcome n) := by
  rw [evalShaWithRetries, evalShaWithRetries, List.range_succ, List.foldl_append]
  rfl

lemma evalShaWithRetries_none_iff (retries : Nat) (outcome : Nat → Option Int) :
    evalShaWithRetries retries outcome = none ↔
      ∀ i < retries, outcome i = none := by
  induction retries with
  | zero => simp [evalShaWithRetries]
  | succ n ih =>
    rw [evalShaWithRetries_succ]
    have horelse : ∀ a b : Option Int, (a <|> b) = none ↔ a = none ∧ b = none := by
      intro a b; cases a <;> simp [Option.orElse]
    rw [horelse, ih]
    constructor
    · rintro ⟨hall, hlast⟩ i hi
      rcases Nat.lt_succ_iff_lt_or_eq.mp hi with hi | hi
      · exact hall i hi
      · subst hi; exact hlast
    · intro hall
      exact ⟨fun i hi => hall i (Nat.lt_succ_of_lt hi), hall n (Nat.lt_succ_self n)⟩

/-- C9: `Take` retries up to the configured bound (clamped to at least one
attempt by the factory constructor), maps a successful attempt's result like
a single round trip, and exhausts into the fatal `none` (the source's
`panic`) exactly when every attempt within the bound failed. -/
theorem retries_exhausted_panics (retries : Nat) (outcome : Nat → Option Int) :
    (takeWithRetries retries outcome = none ↔ ∀ i < retries, outcome i = none) ∧
      takeWithRetries retries outcome =
        (evalShaWithRetries retries outcome).map
          (fun w => if w < 0 then (0, false) else (w, true)) ∧
      ∀ n : Int, 1 ≤ effectiveConnectionRetries n := by
  refine ⟨?_, ?_, ?_⟩
  · rw [takeWithRetries, ← evalShaWithRetries_none_iff retries outcome]
    cases h : evalShaWithRetries retries outcome <;> simp
  · rw [takeWithRetries]
    cases h : evalShaWithRetries retries outcome <;> simp
  · intro n
    rw [effectiveConnectionRetries]
    split_ifs <;> omega

end QS
